import Mathlib

/-!
Verification of the datajoint fork core (table.py, automake.py): a shallow
embedding of the cascading delete engine, the atomic master/part insert
engine, the guarded update engine and the AutoMake argument assembly,
together with theorems settling the frozen claims about them.

Conventions of the embedding:
- machine rows are association lists from attribute names to optional
  integer values (none models SQL NULL / pandas NaN);
- the database connection is modelled as an explicit state (committed rows,
  pending rows of the open transaction, an in-transaction flag) or as a
  trace of transaction operations, depending on what a claim needs;
- collaborators that are outside the two source files (the dependency graph
  catalog, the query expression engine, the value codec) enter as explicit
  parameters (functions or oracles), exactly at the points where the source
  calls them.
-/

namespace DJ

/-- A cell value: `none` models SQL NULL / pandas NaN. -/
abbrev Val := Option Int

/-- A row: an association list from attribute names to values. -/
abbrev Row := List (String × Val)

/-- Cell lookup in a row; a missing attribute reads as NULL. -/
def cell (r : Row) (c : String) : Val := (r.lookup c).getD none

/-- Projection of a row to the given columns, in the given column order
(models selecting a column subset of a pandas DataFrame row). -/
def projRow (cols : List String) (r : Row) : Row :=
  cols.map (fun c => (c, cell r c))

/-- The tuple of values a row takes on the given key columns. -/
def keyOf (pk : List String) (r : Row) : List Val := pk.map (cell r)

/-- Worker of `dropDupOn`: keep the first row for each key tuple not yet
seen (models pandas drop_duplicates on a column subset). -/
def dropDupGo (pk : List String) : List Row → List (List Val) → List Row
  | [], _ => []
  | r :: rest, seen =>
    if keyOf pk r ∈ seen then dropDupGo pk rest seen
    else r :: dropDupGo pk rest (keyOf pk r :: seen)

/-- pandas drop_duplicates on the key columns `pk`: keep the first row for
each distinct key tuple. -/
def dropDupOn (pk : List String) (rs : List Row) : List Row := dropDupGo pk rs []

/-- Python str.isdigit: nonempty and all characters are digits (used for the
numeric placeholder ids of projection nodes in the dependency graph). -/
def pyIsdigit (s : String) : Bool := !s.isEmpty && s.toList.all Char.isDigit

/-! ### Transaction trace model for the cascade engine (table.py `_delete`, `delete`) -/

/-- One operation issued on the connection during a delete call. -/
inductive TxOp where
  | startTx : TxOp
  | commitTx : TxOp
  | cancelTx : TxOp
  | deleteFrom : String → Nat → TxOp
deriving DecidableEq, Repr

/-- The environment of one `_delete` call.  The dependency graph walk and
restriction application are modelled separately (`restrict_by_me`); here
`tables` is the resulting list of real (non placeholder) tables of the
delete list in dependency order with the row count that `delete_quick`
removes from each, and `failAt` injects a query failure at a table. -/
structure DeleteEnv where
  safemode : Bool
  inTransaction : Bool
  tables : List (String × Nat)
  failAt : Option String
  verbose : Bool
  force : Bool
deriving DecidableEq, Repr

/-- The deletion loop of `_delete` over the reversed delete list: the trace
of executed DELETE statements and the accumulated row total, or `none` in
place of the total when the injected failure fired (the statements already
executed stay in the trace). -/
def runDeletes (failAt : Option String) : List (String × Nat) → List TxOp × Option Nat
  | [] => ([], some 0)
  | (t, c) :: rest =>
    if failAt = some t then ([], none)
    else
      let (ops, tot) := runDeletes failAt rest
      (TxOp.deleteFrom t c :: ops, tot.map (c + ·))

/-- The per-table message line `\n{table}: {count} items`. -/
def tableLine (t : String) (c : Nat) : String :=
  "\n" ++ t ++ ": " ++ toString c ++ " items"

/-- Message accumulation of the deletion loop: a line per table when
(verbose or safemode) and the count is nonzero. -/
def accumMessage (verboseOrSafe : Bool) (msg : String) (ops : List TxOp) : String :=
  ops.foldl
    (fun m op =>
      match op with
      | TxOp.deleteFrom t c => if verboseOrSafe && c ≠ 0 then m ++ tableLine t c else m
      | _ => m)
    msg

/-- Error message raised when a safemode delete starts inside a transaction. -/
def safemodeTxMsg : String :=
  "Cannot delete within a transaction in safemode. Set safemode false or complete the ongoing transaction first."

/-- Error propagated when a DELETE statement fails mid-cascade. -/
def deleteFailedMsg : String := "delete failed"

/-- Message reported when a delete joins an inherited transaction. -/
def pendingMsg : String := "\nThe delete is pending within the ongoing transaction."

/-- What `_delete` returns to `delete`: the message and the
commit_transaction flag. -/
structure DelReturn where
  message : String
  commitTransaction : Bool
deriving DecidableEq, Repr

/-- table.py Table._delete: the delete helper.  Returns the outcome (error,
or message plus commit flag) together with the trace of connection operations
it performed. -/
def _delete (env : DeleteEnv) : Except String DelReturn × List TxOp :=
  if env.inTransaction && env.safemode then
    (Except.error safemodeTxMsg, [])
  else
    let msg0 := if env.safemode then "About to delete" else ""
    let ops0 : List TxOp := if !env.inTransaction then [TxOp.startTx] else []
    let (dops, tot) := runDeletes env.failAt env.tables.reverse
    match tot with
    | none =>
      (Except.error deleteFailedMsg,
        ops0 ++ dops ++ (if !env.inTransaction then [TxOp.cancelTx] else []))
    | some total =>
      let msg1 := accumMessage (env.verbose || env.safemode) msg0 dops
      if total = 0 then
        (Except.ok ⟨"Nothing to delete", false⟩,
          ops0 ++ dops ++ (if !env.inTransaction then [TxOp.cancelTx] else []))
      else if env.inTransaction then
        (Except.ok ⟨if env.verbose then pendingMsg else msg1, false⟩, ops0 ++ dops)
      else
        (Except.ok ⟨msg1, !env.safemode || env.force⟩, ops0 ++ dops)

/-- table.py Table.delete: calls `_delete`, prints the message, then commits
when the commit flag is set or the user confirms, and cancels otherwise.
`userYes` is the answer to the Proceed prompt. -/
def delete (env : DeleteEnv) (userYes : Bool) : Except String String × List TxOp :=
  match _delete env with
  | (Except.error e, ops) => (Except.error e, ops)
  | (Except.ok r, ops) =>
    if r.commitTransaction || userYes then (Except.ok "Commited.", ops ++ [TxOp.commitTx])
    else (Except.ok "\nCancelled deletes.", ops ++ [TxOp.cancelTx])

/-- Concrete scenario for the inherited-transaction delete: safemode off, an
open transaction inherited from the caller, one table holding two rows to
delete, no failure, verbose on. -/
def inheritedTxEnv : DeleteEnv :=
  { safemode := false, inTransaction := true, tables := [("db.a", 2)],
    failAt := none, verbose := true, force := false }

/-! ### Drop model (table.py `drop`) -/

/-- One operation issued during a drop call. -/
inductive DropOp where
  | loadDeps : DropOp
  | countRows : String → DropOp
  | dropTable : String → DropOp
deriving DecidableEq, Repr

/-- The environment of one `drop` call: the restriction carried by the
handle, the safemode flag, the descendant list the dependency graph would
return (placeholder nodes included), and the confirmation answer. -/
structure DropEnv where
  restriction : List String
  safemode : Bool
  descendants : List String
  userYes : Bool
deriving DecidableEq, Repr

/-- Error raised when drop is called on a restricted handle. -/
def restrictedDropMsg : String :=
  "A relation with an applied restriction condition cannot be dropped. Call drop on the unrestricted Table."

/-- table.py Table.drop: refuse a restricted handle, otherwise load the
dependency graph, under safemode report row counts and ask, then drop the
real descendant tables in reverse dependency order. -/
def drop (env : DropEnv) : Except String Unit × List DropOp :=
  if env.restriction ≠ [] then
    (Except.error restrictedDropMsg, [])
  else
    let tables := env.descendants.filter (fun t => !pyIsdigit t)
    let ops1 := [DropOp.loadDeps]
    let ops2 := if env.safemode then tables.map DropOp.countRows else []
    let doDrop := !env.safemode || env.userYes
    let ops3 := if doDrop then tables.reverse.map DropOp.dropTable else []
    (Except.ok (), ops1 ++ ops2 ++ ops3)

/-! ### Plain insert model (table.py `insert`) -/

/-- A write query issued by `insert`: one batched INSERT carrying the
processed rows. -/
inductive WriteQuery where
  | insertRows : List Row → WriteQuery
deriving DecidableEq, Repr

/-- The table-side state `insert` consults: whether direct inserts are
allowed (false in an auto-populated table outside its make callback) and
whether the heading could be loaded from the database. -/
structure InsertEnv where
  allowInsert : Bool
  headingAccessible : Bool
deriving DecidableEq, Repr

/-- Error raised on a direct insert into an auto-populated table. -/
def directInsertMsg : String :=
  "Inserts into an auto-populated table can only done inside its make method during a populate call."

/-- table.py Table.insert for materialized rows: the direct-insert guard,
the heading accessibility check, per-row placeholder construction (the value
codec enters through `process`), and one batched write when any rows remain.
Returns the write queries issued. -/
def insert (env : InsertEnv) (process : Row → Except String Row)
    (rows : List Row) (allowDirect : Bool) : Except String (List WriteQuery) := do
  if !allowDirect && !env.allowInsert then
    throw directInsertMsg
  if !env.headingAccessible then
    return []
  let prows ← rows.mapM process
  if prows.isEmpty then
    return []
  return [WriteQuery.insertRows prows]

/-! ### Master/part atomic insert model (table.py `insert1p`) -/

/-- A part table: its full name, heading and primary key. -/
structure PartSpec where
  name : String
  heading : List String
  primaryKey : List String
deriving DecidableEq, Repr

/-- A master table with its part tables. -/
structure TableSpec where
  name : String
  heading : List String
  primaryKey : List String
  parts : List PartSpec
deriving DecidableEq, Repr

/-- The row collection handed to insert1p (a pandas DataFrame after the
accepted-type conversions): an ordered column list and the rows. -/
structure Frame where
  columns : List String
  rows : List Row
deriving DecidableEq, Repr

/-- The database connection state: rows already persisted, rows written but
not yet committed inside the open transaction, and the in-transaction flag.
A row only counts as persisted once it reaches `committed`. -/
structure DBState where
  committed : List (String × Row)
  pending : List (String × Row)
  inTx : Bool
deriving DecidableEq, Repr

/-- Write rows to a table: inside a transaction they go to the pending set,
outside they commit immediately. -/
def appendWrites (st : DBState) (t : String) (rs : List Row) : DBState :=
  if st.inTx then { st with pending := st.pending ++ rs.map (fun r => (t, r)) }
  else { st with committed := st.committed ++ rs.map (fun r => (t, r)) }

/-- Message of the failed primary-key presence assertion of insert1p. -/
def pkMissingMsg : String := "not all master primary key in dataframe for insert1p."

/-- Message of the failed primary-key uniqueness assertion of insert1p. -/
def pkUniqueMsg : String := "master primary keys are not unique."

/-- Message of an injected write failure (e.g. a duplicate key the database
rejects). -/
def insertFailMsg : String := "insert failed"

/-- The master columns of insert1p: heading attributes present among the
supplied columns (the source intersects the two sets; heading order is used
here to make the choice of order explicit). -/
def masterColumns (spec : TableSpec) (frame : Frame) : List String :=
  spec.heading.filter (fun c => decide (c ∈ frame.columns))

/-- The columns of a part table present among the supplied columns. -/
def partColumns (frame : Frame) (p : PartSpec) : List String :=
  p.heading.filter (fun c => decide (c ∈ frame.columns))

/-- The master row insert1p writes: the first supplied row projected to the
master columns, with NULL cells dropped (pandas dropna). -/
def plannedMasterRow (spec : TableSpec) (frame : Frame) : Row :=
  match frame.rows.map (projRow (masterColumns spec frame)) with
  | [] => []
  | r :: _ => r.filter (fun p => decide (p.2 ≠ none))

/-- The rows insert1p writes to one part table: the supplied rows projected
to the part columns, deduplicated on the part primary key; nothing when the
part has no column in the supplied set. -/
def plannedPartWrites (frame : Frame) (p : PartSpec) : List (String × Row) :=
  if partColumns frame p = [] then []
  else
    (dropDupOn p.primaryKey (frame.rows.map (projRow (partColumns frame p)))).map
      (fun r => (p.name, r))

/-- All writes of one insert1p call: the master row first, then every part
table in declaration order. -/
def plannedWrites (spec : TableSpec) (frame : Frame) : List (String × Row) :=
  (spec.name, plannedMasterRow spec frame) :: (spec.parts.map (plannedPartWrites frame)).flatten

/-- The part-table loop of insert1p helper: select each part columns, skip a
part without any, deduplicate on the part primary key and insert; `fails`
injects a database failure on a table write (the failed statement writes
nothing).  Returns the state reached and the error if one fired. -/
def insertParts (fails : String → Bool) (frame : Frame) :
    List PartSpec → DBState → DBState × Option String
  | [], st => (st, none)
  | p :: rest, st =>
    if partColumns frame p = [] then insertParts fails frame rest st
    else if fails p.name then (st, some insertFailMsg)
    else
      insertParts fails frame rest
        (appendWrites st p.name
          (dropDupOn p.primaryKey (frame.rows.map (projRow (partColumns frame p)))))

/-- The helper closure of insert1p: insert the master row, then every part
table. -/
def runHelper (spec : TableSpec) (fails : String → Bool) (frame : Frame)
    (masterInput : Row) (st : DBState) : DBState × Option String :=
  if fails spec.name then (st, some insertFailMsg)
  else insertParts fails frame spec.parts (appendWrites st spec.name [masterInput])

/-- table.py Table.insert1p: check the master primary key is fully present
and unique across the supplied rows, build the master row, then run the
master and part inserts inside a transaction - joining the open transaction
when one exists, otherwise opening one, committing on success and cancelling
on failure.  Returns the final connection state and the error if one fired. -/
def insert1p (spec : TableSpec) (fails : String → Bool) (frame : Frame)
    (st : DBState) : DBState × Option String :=
  if ∀ a ∈ spec.primaryKey, a ∈ masterColumns spec frame then
    if (dropDupOn spec.primaryKey
        (frame.rows.map (projRow (masterColumns spec frame)))).length = 1 then
      if st.inTx then runHelper spec fails frame (plannedMasterRow spec frame) st
      else
        match runHelper spec fails frame (plannedMasterRow spec frame)
            { st with inTx := true } with
        | (st2, none) =>
          ({ committed := st2.committed ++ st2.pending, pending := [], inTx := false }, none)
        | (st2, some e) =>
          ({ committed := st2.committed, pending := [], inTx := false }, some e)
    else (st, some pkUniqueMsg)
  else (st, some pkMissingMsg)

/-! ### Restriction-source computation of the cascade (table.py `_delete`, lines 503-522) -/

/-- The dependency graph collaborator, reduced to the queries `_delete`
makes when computing restriction sources: the descendant closure of a table
(projection placeholder nodes included, the table itself first) and the
children of a node through foreign keys (all of them, and those carrying at
least one non-primary attribute). -/
structure DepGraph where
  descendants : String → List String
  childrenAll : String → List String
  childrenNonPrimary : String → List String

/-- table.py Table._delete restriction-source pass: start empty, add the
deleted table itself when it carries a restriction, add every digit-named
(projection placeholder) node of the delete list, then for every node of the
delete list add its non-primary (secondary) children. -/
def restrict_by_me (g : DepGraph) (T : String) (restriction : List String) :
    Finset String :=
  let deleteList := g.descendants T
  let s0 : Finset String := if restriction ≠ [] then {T} else ∅
  let s1 := s0 ∪ (deleteList.filter (fun n => pyIsdigit n)).toFinset
  deleteList.foldl (fun s n => s ∪ (g.childrenNonPrimary n).toFinset) s1

/-- The set the claim describes, written from its words: the deleted table
itself, every projection node of an edge leaving it, and every secondary
child of a node of its descendant closure. -/
def restrictByMeClaim (g : DepGraph) (T : String) : Finset String :=
  {T} ∪ ((g.childrenAll T).filter (fun n => pyIsdigit n)).toFinset ∪
    ((g.descendants T).map (fun n => (g.childrenNonPrimary n).toFinset)).foldr (· ∪ ·) ∅

/-- Concrete dependency graph refuting the claimed equality: table t has the
simple child a, a feeds the projection placeholder node 5, which resolves to
the child c; no edge carries a secondary attribute. -/
def cGraph : DepGraph :=
  { descendants := fun n => if n = "t" then ["t", "a", "5", "c"] else [n]
    childrenAll := fun n => if n = "t" then ["a"] else if n = "a" then ["5"] else if n = "5" then ["c"] else []
    childrenNonPrimary := fun _ => [] }

/-! ### AutoMake output-shape check (automake.py `make`, lines 112-133) -/

/-- The shape of the computation function result after the per-table
post-processing hook: a null result, a mapping, a numpy recarray, a pandas
DataFrame, or anything else. -/
inductive MakeOutput where
  | noneOut : MakeOutput
  | pydict : List (String × Val) → MakeOutput
  | recarray : MakeOutput
  | dataframe : MakeOutput
  | otherOut : MakeOutput
deriving DecidableEq, Repr

/-- Whether an output is a mapping. -/
def isDict : MakeOutput → Bool
  | MakeOutput.pydict _ => true
  | _ => false

/-- Warning logged when the computation function returns null. -/
def noneWarnMsg : String := "output of function is None"

/-- Error raised for a wrong output shape when the target owns part tables. -/
def partsShapeMsg : String := "output must be dataframe or dict for table with part tables."

/-- Error raised for a wrong output shape when the target owns no part tables. -/
def noPartsShapeMsg : String := "ouput must be dict for table without part tables."

/-- automake.py AutoMake.make, output-shape segment: replace a null result
by an empty record with a warning, convert a recarray to a DataFrame, then
demand a mapping or tabular structure when part tables exist and a single
mapping otherwise.  Returns the normalized output and the warnings logged. -/
def checkOutput (hasParts : Bool) (o : MakeOutput) :
    Except String (MakeOutput × List String) :=
  let p := if o = MakeOutput.noneOut then (MakeOutput.pydict [], [noneWarnMsg]) else (o, [])
  let o2 := if p.1 = MakeOutput.recarray then MakeOutput.dataframe else p.1
  if hasParts && !(o2 = MakeOutput.dataframe || isDict o2) then
    Except.error partsShapeMsg
  else if !hasParts && !(isDict o2) then
    Except.error noPartsShapeMsg
  else
    Except.ok (o2, p.2)

/-- Boolean error test on an Except value. -/
def isErr {ε α : Type} : Except ε α → Bool
  | Except.error _ => true
  | Except.ok _ => false

/-! ### AutoMake argument assembly (automake.py `_create_kwargs`, lines 150-184) -/

/-- The kind of container an entry-settings grouping declares. -/
inductive CKind where
  | pylist : CKind
  | pytuple : CKind
  | pyset : CKind
deriving DecidableEq, Repr

/-- A value of the fetched entry: a scalar cell or a per-row value sequence
of a column over the fetched rows. -/
inductive PVal where
  | atom : Val → PVal
  | arr : List Val → PVal
deriving DecidableEq, Repr

/-- A value of the keyword set handed to the computation function: one entry
value, a container of entry values of a declared kind, or a nested
name-to-value mapping. -/
inductive KwVal where
  | plain : PVal → KwVal
  | container : CKind → List PVal → KwVal
  | nested : List (String × PVal) → KwVal
deriving DecidableEq, Repr

/-- An entry-settings binding: one entry column, a grouping of entry columns
of a declared container kind, or a name-to-column mapping.  (Any other
binding type raises a usage error in the source; the embedding restricts
bindings to the three accepted shapes.) -/
inductive Binding where
  | str : String → Binding
  | seq : CKind → List String → Binding
  | map : List (String × String) → Binding
deriving DecidableEq, Repr

/-- Keep the first occurrence of each element (the deterministic rendering
of building a Python set from an iterable). -/
def dedupFirst {α : Type} [DecidableEq α] : List α → List α
  | [] => []
  | x :: rest => x :: dedupFirst (rest.filter (fun y => decide (y ≠ x)))
termination_by l => l.length
decreasing_by
  simp only [List.length_cons]
  exact Nat.lt_succ_of_le (List.length_filter_le _ _)

/-- The elements of a constructed container: a set collapses duplicates,
ordered kinds keep the listed values. -/
def pySeqElems (k : CKind) (vs : List PVal) : List PVal :=
  if k = CKind.pyset then dedupFirst vs else vs

/-- Python dict assignment: replace in place when the key exists, append
otherwise. -/
def dinsert {α : Type} (m : List (String × α)) (k : String) (v : α) :
    List (String × α) :=
  if m.any (fun p => p.1 = k) then
    m.map (fun p => if p.1 = k then (k, v) else p)
  else m ++ [(k, v)]

/-- Python dict pop: the value of the key and the dictionary without it, or
a KeyError. -/
def dpop {α : Type} (m : List (String × α)) (k : String) :
    Except String (α × List (String × α)) :=
  match m.lookup k with
  | some v => Except.ok (v, m.filter (fun p => decide (p.1 ≠ k)))
  | none => Except.error "KeyError"

/-- Case step on an optional binding result: the bound value transformed,
or the fallback. -/
def optStep {α β : Type} (f : β → α) (o : Option β) (d : Option α) : Option α :=
  match o with
  | some b => some (f b)
  | none => d

/-- The keyword value one binding produces for an entry. -/
def bindingValue (entry : String → PVal) : Binding → KwVal
  | Binding.str col => KwVal.plain (entry col)
  | Binding.seq k cols => KwVal.container k (pySeqElems k (cols.map entry))
  | Binding.map m => KwVal.nested (m.map (fun p => (p.1, entry p.2)))

/-- The entry-settings loop of `_create_kwargs`: apply every binding in
order onto the keyword set. -/
def applyBindings (entry : String → PVal) (es : List (String × Binding))
    (kw : List (String × KwVal)) : List (String × KwVal) :=
  es.foldl (fun acc p => dinsert acc p.1 (bindingValue entry p.2)) kw

/-- automake.py AutoMake._create_kwargs: copy the global settings, apply
every entry-settings binding (so an entry binding replaces a global of the
same name), then pop the reserved positional-splice key into the positional
arguments and the reserved keyword-splice key into the keyword set. -/
def _create_kwargs (entry : String → PVal) (entry_settings : List (String × Binding))
    (global_settings : List (String × KwVal))
    (settings_args settings_kwargs : Option String) :
    Except String (List PVal × List (String × KwVal)) := do
  let kw1 := applyBindings entry entry_settings global_settings
  let (args, kw2) ←
    match settings_args with
    | none => Except.ok (([] : List PVal), kw1)
    | some a => do
      let (v, kwRest) ← dpop kw1 a
      match v with
      | KwVal.container _ vs => Except.ok (vs, kwRest)
      | _ => Except.error "TypeError: popped args value is not iterable"
  match settings_kwargs with
  | none => Except.ok (args, kw2)
  | some a => do
    let (v, kwRest) ← dpop kw2 a
    match v with
    | KwVal.nested m =>
      Except.ok (args, m.foldl (fun acc p => dinsert acc p.1 (KwVal.plain p.2)) kwRest)
    | _ => Except.error "TypeError: popped kwargs value is not a mapping"

/-! ### Guarded update model (table.py `_check_downstream_autopopulated`,
`_update`, `save_update`) -/

/-- The restricted view of a downstream table during the recursive
downstream check: its full name, the number of its rows depending on the
updated entry (the length of the child restricted through the foreign-key
attribute map, a query-engine collaborator), and its own downstream views,
alias nodes already resolved to their single child as the source does. -/
inductive RTable where
  | node : String → Nat → List RTable → RTable

/-- The table name of a downstream view. -/
def RTable.tname : RTable → String
  | RTable.node n _ _ => n

/-- The dependent-row count of a downstream view. -/
def RTable.cnt : RTable → Nat
  | RTable.node _ c _ => c

/-- The backquote character of MySQL name quoting. -/
def backquote : Char := Char.ofNat 96

/-- Python str.strip with one character: remove it from both ends. -/
def stripChar (c : Char) (s : String) : String :=
  String.mk (((s.toList.dropWhile (fun x => x = c)).reverse.dropWhile (fun x => x = c)).reverse)

/-- Split a character list on a separator (Python str.split). -/
def splitOnChar (c : Char) : List Char → List (List Char)
  | [] => [[]]
  | x :: rest =>
    let r := splitOnChar c rest
    if x = c then [] :: r
    else
      match r with
      | [] => [[x]]
      | h :: t => (x :: h) :: t

/-- The part of a full table name after the last dot. -/
def lastComponent (s : String) : String :=
  match (splitOnChar (Char.ofNat 46) s.toList).getLast? with
  | some t => String.mk t
  | none => s

/-- Python str.startswith. -/
def pyStartsWith (s pre : String) : Bool := pre.toList.isPrefixOf s.toList

/-- table.py recognition of an auto-populated table: the bare table name
(after the schema part, backquotes stripped) starts with one of the
auto-populated name markers. -/
def isAutopopName (s : String) : Bool :=
  let t := stripChar backquote (lastComponent s)
  pyStartsWith t "__" || pyStartsWith t "_" || pyStartsWith t "_#" || pyStartsWith t "#_"

/-- Message of the downstream-dependency guard. -/
def saveUpdateFailMsg : String :=
  "Save update failure: Entries of downstream autopopulated tables depend on self. Delete appropriate entries in dependent autopopulated tables before editing entries in self."

/-- Whether a downstream view itself trips the guard: an auto-populated
table currently holding a dependent row. -/
def trips : RTable → Bool
  | RTable.node n c _ => isAutopopName n && decide (c > 0)

/-- table.py Table._check_downstream_autopopulated, as the loop over the
downstream views: recurse into each child first (its returned truth is
discarded, its raised error and emitted warnings are not), then, when the
child is auto-populated and holds a dependent row, raise under the raise
policy, warn and stop with False under warn, silently stop with False under
ignore.  Returns the truth and the warnings emitted. -/
def checkChildren (err : String) : List RTable → Except String (Bool × List String)
  | [] => Except.ok (true, [])
  | RTable.node nm c kids :: rest => do
    let (_, w1) ← checkChildren err kids
    if isAutopopName nm && decide (c > 0) then
      if err = "ignore" then Except.ok (false, w1)
      else if err = "warn" then Except.ok (false, w1 ++ [saveUpdateFailMsg])
      else Except.error saveUpdateFailMsg
    else do
      let (t, w2) ← checkChildren err rest
      Except.ok (t, w1 ++ w2)
termination_by l => sizeOf l
decreasing_by
  all_goals (simp; try omega)

/-- No view of the downstream forest, at any depth, trips the guard. -/
def guardFree : List RTable → Bool
  | [] => true
  | RTable.node nm c kids :: rest =>
    !(isAutopopName nm && decide (c > 0)) && guardFree kids && guardFree rest
termination_by l => sizeOf l
decreasing_by
  all_goals (simp; try omega)

/-- No direct child view of the forest trips the guard.  Deeper views do
not stop the update under the ignore and warn policies, because the source
discards the truth value returned by the recursive call. -/
def topOk : List RTable → Bool
  | [] => true
  | t :: rest => !trips t && topOk rest

/-- The one-row target of a save_update call: how many rows the current
restriction selects, the heading, the primary key, the downstream forest the
dependency walk produces, and the updates applied so far. -/
structure UpdTarget where
  numRows : Nat
  heading : List String
  primary_key : List String
  downstream : List RTable
  applied : List (String × Val)

/-- Message when the restriction does not select exactly one row. -/
def updOneRowMsg : String := "Update is only allowed on one tuple at a time"

/-- Message for an unknown attribute name. -/
def updAttrMsg : String := "Invalid attribute name"

/-- Message for an update of a primary-key attribute. -/
def updPkMsg : String := "Cannot update a key value."

/-- table.py Table._update: demand exactly one selected row, a known
attribute outside the primary key, then apply the update. -/
def _update (t : UpdTarget) (attr : String) (v : Val) : Except String UpdTarget :=
  if t.numRows ≠ 1 then Except.error updOneRowMsg
  else if attr ∉ t.heading then Except.error updAttrMsg
  else if attr ∈ t.primary_key then Except.error updPkMsg
  else Except.ok { t with applied := t.applied ++ [(attr, v)] }

/-- table.py Table.save_update: run the downstream guard, then apply the
update only when it returned True.  Returns the target reached and the
warnings emitted. -/
def save_update (t : UpdTarget) (attr : String) (v : Val) (err : String) :
    Except String (UpdTarget × List String) := do
  let (truth, ws) ← checkChildren err t.downstream
  if truth then
    let t2 ← _update t attr v
    Except.ok (t2, ws)
  else Except.ok (t, ws)

/-- Concrete save_update target: one selected row, one downstream
auto-populated table holding one dependent row. -/
def wTarget : UpdTarget :=
  { numRows := 1, heading := ["a", "x"], primary_key := ["a"],
    downstream := [RTable.node "db.__computed" 1 []], applied := [] }

/-- Concrete fetched entry for the argument-assembly witness. -/
def wEntry : String → PVal := fun c =>
  if c = "colA" then PVal.atom (some 1)
  else if c = "colB" then PVal.atom (some 2)
  else if c = "colC" then PVal.atom (some 3)
  else PVal.atom none

/-- Concrete entry settings for the argument-assembly witness: x bound to
colA, y bound to the tuple (colB, colC). -/
def wES : List (String × Binding) :=
  [("x", Binding.str "colA"), ("y", Binding.seq CKind.pytuple ["colB", "colC"])]

/-- Concrete global settings for the argument-assembly witness; the x
binding collides with an entry binding on purpose. -/
def wGS : List (String × KwVal) :=
  [("x", KwVal.plain (PVal.atom (some 99))), ("z", KwVal.plain (PVal.atom (some 7)))]

/-- Concrete master/part layout for the insert1p witnesses: master m with
primary key id, one part table p keyed by (id, idx). -/
def wSpec : TableSpec :=
  { name := "db.m", heading := ["id", "a"], primaryKey := ["id"],
    parts := [{ name := "db.m__p", heading := ["id", "idx", "b"], primaryKey := ["id", "idx"] }] }

/-- Concrete two-row frame sharing one master key for the insert1p witness. -/
def wFrame : Frame :=
  { columns := ["id", "a", "idx", "b"],
    rows := [[("id", some 1), ("a", some 10), ("idx", some 0), ("b", some 5)],
             [("id", some 1), ("a", some 10), ("idx", some 1), ("b", some 6)]] }

/-- Concrete frame whose two rows carry different master keys. -/
def wFrameDup : Frame :=
  { columns := ["id", "a"],
    rows := [[("id", some 1), ("a", some 10)], [("id", some 2), ("a", some 11)]] }

/-- Connection state outside a transaction with one unrelated committed row. -/
def wSt : DBState :=
  { committed := [("db.other", [("id", some 9)])], pending := [], inTx := false }

/-! ## Theorems -/

/-- C7: starting a delete that requires interactive confirmation (safemode
on) while already inside an open transaction raises a fatal usage error, and
the operation trace is empty: no row is deleted, no transaction is opened or
finalized, and no table state changes. -/
theorem delete_safemode_in_transaction_aborts (env : DeleteEnv)
    (hin : env.inTransaction = true) (hsafe : env.safemode = true) :
    _delete env = (Except.error safemodeTxMsg, []) := by
  simp [_delete, hin, hsafe]

/-- Witness for C7 at a concrete environment. -/
theorem delete_safemode_in_transaction_aborts_witness :
    _delete ⟨true, true, [("db.a", 2)], none, true, false⟩ =
      (Except.error safemodeTxMsg, []) :=
  delete_safemode_in_transaction_aborts _ rfl rfl

/-- C1: evaluation of the code at the failing input.  With a transaction
inherited from an outer call (safemode off, two rows to delete), the helper
reports the delete as pending with the commit flag down, yet the full delete
call then finalizes the inherited transaction either way: it cancels it when
the user declines and commits it when the user confirms.  The claim (and the
message the code itself prints) says an inherited transaction is never
finalized by the delete call. -/
theorem delete_finalizes_inherited_transaction :
    (_delete inheritedTxEnv).1 = Except.ok ⟨pendingMsg, false⟩ ∧
    delete inheritedTxEnv false =
      (Except.ok "\nCancelled deletes.", [TxOp.deleteFrom "db.a" 2, TxOp.cancelTx]) ∧
    delete inheritedTxEnv true =
      (Except.ok "Commited.", [TxOp.deleteFrom "db.a" 2, TxOp.commitTx]) :=
  ⟨rfl, rfl, rfl⟩

/-- C8: drop on a handle carrying an applied restriction raises immediately:
the dependency graph is never consulted and no table is dropped, so no table
state changes. -/
theorem drop_restricted_refuses (env : DropEnv) (h : env.restriction ≠ []) :
    drop env = (Except.error restrictedDropMsg, []) := by
  simp [drop, h]

/-- Witness for C8 at a concrete environment. -/
theorem drop_restricted_refuses_witness :
    drop ⟨["id=5"], false, ["db.a", "db.b"], true⟩ =
      (Except.error restrictedDropMsg, []) :=
  drop_restricted_refuses _ (by decide)

/-- C9 counterexample: inserting an empty collection of rows into an
auto-populated table outside its make callback raises the direct-insert
error, refuting the claim that an empty insert never raises. -/
theorem insert_empty_rows_error_counterexample :
    insert ⟨false, true⟩ (fun r => Except.ok r) [] false =
      Except.error directInsertMsg :=
  rfl

/-- C9 (amended): an insert of an empty collection of rows that passes the
direct-insert guard (direct insert allowed, or the table is not
auto-populated) issues no write query and raises no error, leaving the
table contents unchanged. -/
theorem insert_empty_rows_no_query (env : InsertEnv)
    (process : Row → Except String Row) (allowDirect : Bool)
    (h : allowDirect = true ∨ env.allowInsert = true) :
    insert env process [] allowDirect = Except.ok [] := by
  cases hh : env.headingAccessible <;>
    rcases h with h | h <;>
      simp [insert, h, hh, List.mapM, List.mapM.loop, pure, Except.pure, bind, Except.bind]

/-- Witness for C9 at a concrete environment. -/
theorem insert_empty_rows_no_query_witness :
    insert ⟨true, true⟩ (fun r => Except.ok r) [] false = Except.ok [] :=
  insert_empty_rows_no_query _ _ _ (Or.inr rfl)

/-- C6: in the make output-shape check, a null result becomes the empty
record with a warning logged; with part tables the shape error fires exactly
for a result that is neither a mapping nor tabular (recarray or DataFrame);
without part tables it fires exactly for a result that is not a single
mapping (a recarray converts to a DataFrame first and is still refused). -/
theorem make_output_shape (hasParts : Bool) (o : MakeOutput) :
    checkOutput hasParts MakeOutput.noneOut =
      Except.ok (MakeOutput.pydict [], [noneWarnMsg]) ∧
    (isErr (checkOutput true o) = true ↔ o = MakeOutput.otherOut) ∧
    (isErr (checkOutput false o) = true ↔
      (o = MakeOutput.otherOut ∨ o = MakeOutput.recarray ∨ o = MakeOutput.dataframe)) := by
  refine ⟨?_, ?_, ?_⟩
  · cases hasParts <;> rfl
  · cases o <;> simp [checkOutput, isErr, isDict]
  · cases o <;> simp [checkOutput, isErr, isDict]

/-- Membership in a left fold of unions: the seed or one of the folded
sets. -/
theorem mem_foldl_union (f : String → Finset String) (l : List String)
    (s0 : Finset String) (x : String) :
    x ∈ l.foldl (fun s n => s ∪ f n) s0 ↔ x ∈ s0 ∨ ∃ n ∈ l, x ∈ f n := by
  induction l generalizing s0 with
  | nil => simp
  | cons a as ih =>
    simp only [List.foldl_cons, ih, Finset.mem_union, List.mem_cons]
    constructor
    · rintro (⟨h | h⟩ | ⟨n, hn, hx⟩)
      · exact Or.inl h
      · exact Or.inr ⟨a, Or.inl rfl, h⟩
      · exact Or.inr ⟨n, Or.inr hn, hx⟩
    · rintro (h | ⟨n, rfl | hn, hx⟩)
      · exact Or.inl (Or.inl h)
      · exact Or.inl (Or.inr hx)
      · exact Or.inr ⟨n, hn, hx⟩

/-- C5 counterexample: on `cGraph` with no restriction on t, the computed
restriction-source set contains the projection node 5 (which is not on an
edge from t) and misses t itself, while the set the claim describes is
exactly the opposite on those two nodes: the claimed equality fails. -/
theorem restrict_by_me_counterexample :
    "t" ∈ restrictByMeClaim cGraph "t" ∧ "t" ∉ restrict_by_me cGraph "t" [] ∧
    "5" ∈ restrict_by_me cGraph "t" [] ∧ "5" ∉ restrictByMeClaim cGraph "t" := by
  decide

/-- C5 (amended): in a cascading delete of table T, the set of nodes that
restrict their children by their whole restricted relation consists of T
itself when (and only when) the call carries a nonempty restriction,
together with every digit-named projection placeholder node of the
descendant closure of T (not only those on edges leaving T), together with
every table that is a secondary (non-primary) child of a node of the
descendant closure. -/
theorem restrict_by_me_mem (g : DepGraph) (T : String) (restriction : List String)
    (x : String) :
    x ∈ restrict_by_me g T restriction ↔
      (restriction ≠ [] ∧ x = T) ∨
      (x ∈ g.descendants T ∧ pyIsdigit x = true) ∨
      (∃ n ∈ g.descendants T, x ∈ g.childrenNonPrimary n) := by
  unfold restrict_by_me
  rw [mem_foldl_union]
  simp only [Finset.mem_union, List.mem_toFinset, List.mem_filter]
  constructor
  · rintro (⟨h | h⟩ | h)
    · left
      rcases em (restriction = []) with he | he
      · simp [he] at h
      · simp [he] at h
        exact ⟨he, h⟩
    · exact Or.inr (Or.inl h)
    · exact Or.inr (Or.inr h)
  · rintro (⟨hne, rfl⟩ | h | h)
    · exact Or.inl (Or.inl (by simp [hne]))
    · exact Or.inl (Or.inr h)
    · exact Or.inr h

/-- Characterization of association-list lookup at a cons cell. -/
theorem lookup_cons_eq {α : Type} (k ak : String) (av : α) (l : List (String × α)) :
    ((ak, av) :: l).lookup k = if k = ak then some av else l.lookup k := by
  simp only [List.lookup]
  by_cases h : k = ak
  · simp [h]
  · have hb : (k == ak) = false := beq_eq_false_iff_ne.mpr h
    simp [hb, h]

/-- Lookup after the in-place replacement pass of a dict assignment, at a
different key: unchanged. -/
theorem lookup_map_replace {α : Type} (m : List (String × α)) (k k2 : String)
    (v : α) (hne : k2 ≠ k) :
    (m.map (fun p => if p.1 = k then (k, v) else p)).lookup k2 = m.lookup k2 := by
  induction m with
  | nil => rfl
  | cons a rest ih =>
    rcases a with ⟨ak, av⟩
    by_cases h : ak = k
    · simp [h, lookup_cons_eq, hne, ih]
    · simp [h, lookup_cons_eq, ih]

/-- Lookup after the in-place replacement pass of a dict assignment, at the
assigned key, when the key occurs: the new value. -/
theorem lookup_map_replace_self {α : Type} (m : List (String × α)) (k : String)
    (v : α) (h : m.any (fun p => decide (p.1 = k)) = true) :
    (m.map (fun p => if p.1 = k then (k, v) else p)).lookup k = some v := by
  induction m with
  | nil => simp at h
  | cons a rest ih =>
    rcases a with ⟨ak, av⟩
    by_cases ha : ak = k
    · simp [ha, lookup_cons_eq]
    · have hrest : rest.any (fun p => decide (p.1 = k)) = true := by
        simp only [List.any_cons, Bool.or_eq_true, decide_eq_true_eq] at h
        exact h.resolve_left ha
      simp [ha, lookup_cons_eq, ih hrest, Ne.symm ha]

/-- A key matched by no pair looks up to none. -/
theorem lookup_eq_none_of_not_any {α : Type} (m : List (String × α)) (k : String)
    (h : m.any (fun p => decide (p.1 = k)) = false) : m.lookup k = none := by
  induction m with
  | nil => rfl
  | cons a rest ih =>
    rcases a with ⟨ak, av⟩
    simp only [List.any_cons, Bool.or_eq_false_iff, decide_eq_false_iff_not] at h
    have : k ≠ ak := fun he => h.1 he.symm
    simp [lookup_cons_eq, this, ih h.2]

/-- A key outside the key list looks up to none. -/
theorem lookup_eq_none_of_not_mem {α : Type} (m : List (String × α)) (k : String)
    (h : k ∉ m.map Prod.fst) : m.lookup k = none := by
  induction m with
  | nil => rfl
  | cons a rest ih =>
    rcases a with ⟨ak, av⟩
    simp only [List.map_cons, List.mem_cons, not_or] at h
    simp [lookup_cons_eq, h.1, ih h.2]

/-- Lookup over a concatenation: the left side wins when it has the key. -/
theorem lookup_append {α : Type} (m l : List (String × α)) (k : String) :
    (m ++ l).lookup k =
      match m.lookup k with
      | some v => some v
      | none => l.lookup k := by
  induction m with
  | nil => rfl
  | cons a rest ih =>
    rcases a with ⟨ak, av⟩
    by_cases h : k = ak
    · simp [lookup_cons_eq, h]
    · simp [lookup_cons_eq, h, ih]

/-- Lookup after a Python dict assignment: the assigned key reads the new
value, every other key is unchanged. -/
theorem lookup_dinsert {α : Type} (m : List (String × α)) (k k2 : String) (v : α) :
    (dinsert m k v).lookup k2 = if k2 = k then some v else m.lookup k2 := by
  unfold dinsert
  by_cases hk : k2 = k
  · subst hk
    split
    · rename_i h
      simp [lookup_map_replace_self m k2 v h]
    · rename_i h
      rw [lookup_append]
      have hnone := lookup_eq_none_of_not_any m k2 (Bool.eq_false_iff.mpr h)
      simp [hnone, lookup_cons_eq]
  · rw [if_neg hk]
    split
    · exact lookup_map_replace m k k2 v hk
    · rw [lookup_append]
      cases hm : m.lookup k2 with
      | some w => rfl
      | none => simp [lookup_cons_eq, hk]

/-- Lookup after a Python dict pop: the popped key is gone, every other key
is unchanged. -/
theorem lookup_dremove {α : Type} (m : List (String × α)) (k k2 : String) :
    (m.filter (fun p => decide (p.1 ≠ k))).lookup k2 =
      if k2 = k then none else m.lookup k2 := by
  induction m with
  | nil => simp
  | cons a rest ih =>
    rcases a with ⟨ak, av⟩
    rw [List.filter_cons]
    by_cases ha : ak = k
    · rw [if_neg (by simp [ha])]
      rw [ih, lookup_cons_eq]
      by_cases h2 : k2 = k
      · simp [h2]
      · have hne : k2 ≠ ak := fun hh => h2 (hh.trans ha)
        simp [h2, hne]
    · rw [if_pos (by simp [ha])]
      rw [lookup_cons_eq, ih, lookup_cons_eq]
      by_cases h2 : k2 = k
      · have hne : k2 ≠ ak := fun hh => ha (hh.symm.trans h2)
        have hne2 : ¬k = ak := h2 ▸ hne
        simp [h2, hne, hne2]
      · simp [h2]

/-- Lookup after folding dict assignments over distinct keys: an assigned
key reads its assigned value, every other key reads the seed dict. -/
theorem lookup_foldl_dinsert {α β : Type} (f : β → α) (ps : List (String × β)) :
    ∀ (kw : List (String × α)) (k : String), (ps.map Prod.fst).Nodup →
    (ps.foldl (fun acc p => dinsert acc p.1 (f p.2)) kw).lookup k =
      optStep f (ps.lookup k) (kw.lookup k) := by
  induction ps with
  | nil => intro kw k _; rfl
  | cons a rest ih =>
    intro kw k hnd
    rcases a with ⟨ak, ab⟩
    simp only [List.map_cons, List.nodup_cons] at hnd
    simp only [List.foldl_cons]
    rw [ih _ k hnd.2]
    rw [lookup_cons_eq]
    by_cases hk : k = ak
    · subst hk
      rw [lookup_eq_none_of_not_mem rest k hnd.1]
      simp [optStep, lookup_dinsert]
    · cases h2 : rest.lookup k with
      | some b => simp [optStep, hk, h2]
      | none => simp [optStep, hk, h2, lookup_dinsert]

/-- C4: argument assembly for the computation function.  The keyword set
starts from a copy of global_settings with every entry-settings binding
applied onto it, so an entry binding wins any name collision: a string
binding maps the argument to that entry column value, a sequence binding
assembles the listed entry column values into a container of the declared
kind, a mapping binding produces a nested name-to-value dict, and an
argument bound by no entry binding keeps its global value.  The reserved
args key is removed from the keyword set and its elements are spliced into
the positional arguments; the reserved kwargs key is removed and its mapping
is spliced into the keyword set. -/
theorem create_kwargs_assembly (entry : String → PVal)
    (es : List (String × Binding)) (gs : List (String × KwVal))
    (hnd : (es.map Prod.fst).Nodup) :
    (_create_kwargs entry es gs none none =
      Except.ok ([], applyBindings entry es gs)) ∧
    (∀ k c, es.lookup k = some (Binding.str c) →
      (applyBindings entry es gs).lookup k = some (KwVal.plain (entry c))) ∧
    (∀ k ck cols, es.lookup k = some (Binding.seq ck cols) →
      (applyBindings entry es gs).lookup k =
        some (KwVal.container ck (pySeqElems ck (cols.map entry)))) ∧
    (∀ k m, es.lookup k = some (Binding.map m) →
      (applyBindings entry es gs).lookup k =
        some (KwVal.nested (m.map (fun p => (p.1, entry p.2))))) ∧
    (∀ k, es.lookup k = none →
      (applyBindings entry es gs).lookup k = gs.lookup k) ∧
    (∀ a ck vs,
      (applyBindings entry es gs).lookup a = some (KwVal.container ck vs) →
      ∃ kw2, _create_kwargs entry es gs (some a) none = Except.ok (vs, kw2) ∧
        kw2.lookup a = none ∧
        ∀ k, k ≠ a → kw2.lookup k = (applyBindings entry es gs).lookup k) ∧
    (∀ a m,
      (applyBindings entry es gs).lookup a = some (KwVal.nested m) →
      (m.map Prod.fst).Nodup →
      ∃ kw3, _create_kwargs entry es gs none (some a) = Except.ok ([], kw3) ∧
        ∀ k, kw3.lookup k =
          optStep KwVal.plain (m.lookup k)
            (if k = a then none else (applyBindings entry es gs).lookup k)) := by
  have hmain : ∀ k, (applyBindings entry es gs).lookup k =
      optStep (bindingValue entry) (es.lookup k) (gs.lookup k) := by
    intro k
    unfold applyBindings
    exact lookup_foldl_dinsert (bindingValue entry) es gs k hnd
  refine ⟨rfl, ?_, ?_, ?_, ?_, ?_, ?_⟩
  · intro k c h
    rw [hmain k, h]
    rfl
  · intro k ck cols h
    rw [hmain k, h]
    rfl
  · intro k m h
    rw [hmain k, h]
    rfl
  · intro k h
    rw [hmain k, h]
    rfl
  · intro a ck vs h
    refine ⟨(applyBindings entry es gs).filter (fun p => decide (p.1 ≠ a)), ?_, ?_, ?_⟩
    · simp [_create_kwargs, dpop, h, bind, Except.bind]
    · rw [lookup_dremove]
      simp
    · intro k hk
      rw [lookup_dremove]
      simp [hk]
  · intro a m h hm
    refine ⟨m.foldl (fun acc p => dinsert acc p.1 (KwVal.plain p.2))
      ((applyBindings entry es gs).filter (fun p => decide (p.1 ≠ a))), ?_, ?_⟩
    · simp [_create_kwargs, dpop, h, bind, Except.bind]
    · intro k
      rw [lookup_foldl_dinsert KwVal.plain m _ k hm, lookup_dremove]

/-- Witness for C4 at the spec example: x bound to the entry column colA, y
bound to the tuple of entry columns (colB, colC), the entry binding of x
winning the collision with the global x, and the unbound z keeping its
global value. -/
theorem create_kwargs_assembly_witness :
    (applyBindings wEntry wES wGS).lookup "x" = some (KwVal.plain (wEntry "colA")) ∧
    (applyBindings wEntry wES wGS).lookup "y" =
      some (KwVal.container CKind.pytuple
        (pySeqElems CKind.pytuple (["colB", "colC"].map wEntry))) ∧
    (applyBindings wEntry wES wGS).lookup "z" = wGS.lookup "z" := by
  have h := create_kwargs_assembly wEntry wES wGS (by decide)
  exact ⟨h.2.1 "x" "colA" (by decide),
    h.2.2.1 "y" CKind.pytuple ["colB", "colC"] (by decide),
    h.2.2.2.2.1 "z" (by decide)⟩

/-- Under the raise policy the downstream check raises exactly when some
view in the forest, at any depth, trips the guard. -/
theorem checkChildren_raise : ∀ (n : Nat) (l : List RTable), sizeOf l ≤ n →
    checkChildren "raise" l =
      (if guardFree l then Except.ok (true, []) else Except.error saveUpdateFailMsg) := by
  intro n
  induction n with
  | zero =>
    intro l hl
    cases l with
    | nil => simp [checkChildren, guardFree]
    | cons a rest => cases a; simp at hl
  | succ n ih =>
    intro l hl
    cases l with
    | nil => simp [checkChildren, guardFree]
    | cons a rest =>
      cases a with
      | node nm c kids =>
        have hk : sizeOf kids ≤ n := by simp at hl; omega
        have hr : sizeOf rest ≤ n := by simp at hl; omega
        by_cases h1 : guardFree kids <;> by_cases h2 : isAutopopName nm && decide (c > 0) <;>
          by_cases h3 : guardFree rest <;>
            simp [checkChildren, guardFree, ih kids hk, ih rest hr, h1, h2, h3,
              bind, Except.bind]

/-- Under any policy a guard-free downstream forest checks clean: truth with
no warnings. -/
theorem checkChildren_guardFree : ∀ (n : Nat) (err : String) (l : List RTable),
    sizeOf l ≤ n → guardFree l = true → checkChildren err l = Except.ok (true, []) := by
  intro n
  induction n with
  | zero =>
    intro err l hl _
    cases l with
    | nil => simp [checkChildren]
    | cons a rest => cases a; simp at hl
  | succ n ih =>
    intro err l hl hg
    cases l with
    | nil => simp [checkChildren]
    | cons a rest =>
      cases a with
      | node nm c kids =>
        have hk : sizeOf kids ≤ n := by simp at hl; omega
        have hr : sizeOf rest ≤ n := by simp at hl; omega
        simp only [guardFree, Bool.and_eq_true, Bool.not_eq_true'] at hg
        simp [checkChildren, ih err kids hk hg.1.2, ih err rest hr hg.2,
          hg.1.1, bind, Except.bind]

/-- Under the ignore policy the downstream check never raises and never
warns: it returns False exactly when a direct child view trips the guard. -/
theorem checkChildren_ignore : ∀ (n : Nat) (l : List RTable), sizeOf l ≤ n →
    checkChildren "ignore" l = Except.ok (topOk l, []) := by
  intro n
  induction n with
  | zero =>
    intro l hl
    cases l with
    | nil => simp [checkChildren, topOk]
    | cons a rest => cases a; simp at hl
  | succ n ih =>
    intro l hl
    cases l with
    | nil => simp [checkChildren, topOk]
    | cons a rest =>
      cases a with
      | node nm c kids =>
        have hk : sizeOf kids ≤ n := by simp at hl; omega
        have hr : sizeOf rest ≤ n := by simp at hl; omega
        by_cases h2 : isAutopopName nm && decide (c > 0) <;>
          simp [checkChildren, topOk, trips, ih kids hk, ih rest hr, h2,
            bind, Except.bind]

/-- Under the warn policy the downstream check never raises; it returns
False exactly when a direct child view trips the guard, and whenever any
view of the forest, at any depth, trips the guard, the guard warning is
among the emitted warnings. -/
theorem checkChildren_warn : ∀ (n : Nat) (l : List RTable), sizeOf l ≤ n →
    ∃ ws, checkChildren "warn" l = Except.ok (topOk l, ws) ∧
      (guardFree l = false → saveUpdateFailMsg ∈ ws) := by
  intro n
  induction n with
  | zero =>
    intro l hl
    cases l with
    | nil =>
      refine ⟨[], by simp [checkChildren, topOk], ?_⟩
      intro h
      simp [guardFree] at h
    | cons a rest => cases a; simp at hl
  | succ n ih =>
    intro l hl
    cases l with
    | nil =>
      refine ⟨[], by simp [checkChildren, topOk], ?_⟩
      intro h
      simp [guardFree] at h
    | cons a rest =>
      cases a with
      | node nm c kids =>
        have hk : sizeOf kids ≤ n := by simp at hl; omega
        have hr : sizeOf rest ≤ n := by simp at hl; omega
        obtain ⟨w1, hw1, hm1⟩ := ih kids hk
        by_cases h2 : isAutopopName nm && decide (c > 0)
        · refine ⟨w1 ++ [saveUpdateFailMsg], ?_, ?_⟩
          · simp [checkChildren, hw1, h2, bind, Except.bind, topOk, trips]
          · intro _
            simp
        · obtain ⟨w2, hw2, hm2⟩ := ih rest hr
          refine ⟨w1 ++ w2, ?_, ?_⟩
          · simp [checkChildren, hw1, hw2, h2, bind, Except.bind, topOk, trips]
          · intro hfalse
            have h2f : (isAutopopName nm && decide (c > 0)) = false :=
              Bool.eq_false_iff.mpr h2
            simp only [guardFree, h2f, Bool.not_false, Bool.true_and] at hfalse
            have hor : guardFree kids = false ∨ guardFree rest = false := by
              cases hgk : guardFree kids <;> cases hgr : guardFree rest
              · exact Or.inl rfl
              · exact Or.inl rfl
              · exact Or.inr rfl
              · rw [hgk, hgr] at hfalse
                simp at hfalse
            rcases hor with hf | hf
            · exact List.mem_append_left w2 (hm1 hf)
            · exact List.mem_append_right w1 (hm2 hf)

/-- A direct child view that trips the guard makes the direct-child test
fail. -/
theorem topOk_false_of_trip (l : List RTable) (h : ∃ c ∈ l, trips c = true) :
    topOk l = false := by
  induction l with
  | nil => simp at h
  | cons a rest ih =>
    rcases h with ⟨x, hx, ht⟩
    rcases List.mem_cons.mp hx with rfl | hx
    · simp [topOk, ht]
    · simp [topOk, ih ⟨x, hx, ht⟩]

/-- A direct child view that trips the guard makes the whole forest
non-guard-free. -/
theorem guardFree_false_of_trip (l : List RTable) (h : ∃ c ∈ l, trips c = true) :
    guardFree l = false := by
  induction l with
  | nil => simp at h
  | cons a rest ih =>
    cases a with
    | node nm c kids =>
      rcases h with ⟨x, hx, ht⟩
      rcases List.mem_cons.mp hx with rfl | hx
      · simp only [trips] at ht
        simp [guardFree, ht]
      · simp [guardFree, ih ⟨x, hx, ht⟩]

/-- A guard-free forest passes the direct-child test. -/
theorem topOk_true_of_guardFree (l : List RTable) (h : guardFree l = true) :
    topOk l = true := by
  induction l with
  | nil => rfl
  | cons a rest ih =>
    cases a with
    | node nm c kids =>
      simp only [guardFree, Bool.and_eq_true] at h
      simp only [topOk, trips, Bool.and_eq_true]
      exact ⟨h.1.1, ih h.2⟩

/-- A failing direct-child test means the forest is not guard-free. -/
theorem guardFree_false_of_topOk_false (l : List RTable) (h : topOk l = false) :
    guardFree l = false := by
  cases hg : guardFree l with
  | false => rfl
  | true =>
    rw [topOk_true_of_guardFree l hg] at h
    exact absurd h (by simp)

/-- C2 (amended): save_update under policy raise refuses the update by
raising whenever a downstream auto-populated table, at any depth, holds a
dependent row; under policies ignore and warn the update is skipped
(silently under ignore, after the guard warning under warn) exactly when a
directly referencing downstream auto-populated table holds a dependent row,
while a dependent row found only in deeper descendants does not stop the
update - the source discards the truth value returned by the recursive
check - so the update is then applied, silently under ignore and after a
warning under warn; with no dependent downstream row at any depth the
update is applied, with no warning, under every policy. -/
theorem save_update_policies (t : UpdTarget) (attr : String) (v : Val) (err : String) :
    (guardFree t.downstream = false →
      save_update t attr v "raise" = Except.error saveUpdateFailMsg) ∧
    (topOk t.downstream = false →
      save_update t attr v "ignore" = Except.ok (t, []) ∧
      ∃ ws, save_update t attr v "warn" = Except.ok (t, ws) ∧ saveUpdateFailMsg ∈ ws) ∧
    (topOk t.downstream = true → t.numRows = 1 → attr ∈ t.heading →
      attr ∉ t.primary_key →
      save_update t attr v "ignore" =
        Except.ok ({ t with applied := t.applied ++ [(attr, v)] }, []) ∧
      (guardFree t.downstream = false →
        ∃ ws, save_update t attr v "warn" =
          Except.ok ({ t with applied := t.applied ++ [(attr, v)] }, ws) ∧
          saveUpdateFailMsg ∈ ws)) ∧
    (guardFree t.downstream = true → t.numRows = 1 → attr ∈ t.heading →
      attr ∉ t.primary_key →
      save_update t attr v err =
        Except.ok ({ t with applied := t.applied ++ [(attr, v)] }, [])) := by
  refine ⟨?_, ?_, ?_, ?_⟩
  · intro hg
    have hr := checkChildren_raise (sizeOf t.downstream) t.downstream le_rfl
    rw [hg] at hr
    simp only [Bool.false_eq_true, if_false] at hr
    simp [save_update, hr, bind, Except.bind]
  · intro htop
    have hi := checkChildren_ignore (sizeOf t.downstream) t.downstream le_rfl
    rw [htop] at hi
    obtain ⟨ws, hw, hmem⟩ := checkChildren_warn (sizeOf t.downstream) t.downstream le_rfl
    rw [htop] at hw
    have hgf := guardFree_false_of_topOk_false t.downstream htop
    refine ⟨by simp [save_update, hi, bind, Except.bind], ws, ?_, hmem hgf⟩
    simp [save_update, hw, bind, Except.bind]
  · intro htop h1 h2 h3
    have hi := checkChildren_ignore (sizeOf t.downstream) t.downstream le_rfl
    rw [htop] at hi
    obtain ⟨ws, hw, hmem⟩ := checkChildren_warn (sizeOf t.downstream) t.downstream le_rfl
    rw [htop] at hw
    constructor
    · simp [save_update, hi, bind, Except.bind, _update, h1, h2, h3]
    · intro hg
      refine ⟨ws, ?_, hmem hg⟩
      simp [save_update, hw, bind, Except.bind, _update, h1, h2, h3]
  · intro hgf h1 h2 h3
    have hok := checkChildren_guardFree (sizeOf t.downstream) err t.downstream le_rfl hgf
    simp [save_update, hok, bind, Except.bind, _update, h1, h2, h3]

/-- C2 counterexample: on a one-row target with one dependent row in a
downstream auto-populated table, save_update under policy warn emits the
guard warning but leaves the update unapplied (the target state is
unchanged), refuting the claim that warn applies the update. -/
theorem save_update_warn_skips :
    save_update wTarget "x" (some 5) "warn" =
      Except.ok (wTarget, [saveUpdateFailMsg]) ∧ wTarget.applied = [] := by
  have ha : isAutopopName "db.__computed" = true := by decide
  constructor
  · simp [save_update, checkChildren, wTarget, ha, bind, Except.bind]
  · rfl

/-- Projection keeps the value of every projected column. -/
theorem cell_projRow (cols : List String) (r : Row) (a : String) (h : a ∈ cols) :
    cell (projRow cols r) a = cell r a := by
  induction cols with
  | nil => simp at h
  | cons c cs ih =>
    by_cases hc : a = c
    · subst hc
      simp [cell, projRow, lookup_cons_eq]
    · have h2 : a ∈ cs := by
        rcases List.mem_cons.mp h with h1 | h1
        · exact absurd h1 hc
        · exact h1
      have hrec := ih h2
      simp only [projRow, List.map_cons, cell, lookup_cons_eq, hc, if_false] at hrec ⊢
      exact hrec

/-- Projection keeps the key tuple when the key columns are projected. -/
theorem keyOf_projRow (pk cols : List String) (r : Row)
    (h : ∀ a ∈ pk, a ∈ cols) :
    keyOf pk (projRow cols r) = keyOf pk r := by
  induction pk with
  | nil => rfl
  | cons p ps ih =>
    simp only [keyOf, List.map_cons]
    rw [cell_projRow cols r p (h p (List.mem_cons_self p ps))]
    have hrec := ih (fun a ha => h a (List.mem_cons_of_mem p ha))
    simp only [keyOf] at hrec
    rw [hrec]

/-- Every row whose key tuple was not yet seen is represented, by key, in
the deduplicated list. -/
theorem dropDupGo_mem_key (pk : List String) :
    ∀ (rs : List Row) (seen : List (List Val)) (r : Row), r ∈ rs →
      keyOf pk r ∉ seen →
      ∃ r2 ∈ dropDupGo pk rs seen, keyOf pk r2 = keyOf pk r := by
  intro rs
  induction rs with
  | nil =>
    intro seen r h
    simp at h
  | cons a rest ih =>
    intro seen r hr hs
    rcases List.mem_cons.mp hr with rfl | hr2
    · simp only [dropDupGo, if_neg hs]
      exact ⟨r, List.mem_cons_self _ _, rfl⟩
    · by_cases h : keyOf pk a ∈ seen
      · simp only [dropDupGo, if_pos h]
        exact ih seen r hr2 hs
      · simp only [dropDupGo, if_neg h]
        by_cases hk : keyOf pk r = keyOf pk a
        · exact ⟨a, List.mem_cons_self _ _, hk.symm⟩
        · have hs2 : keyOf pk r ∉ (keyOf pk a :: seen) := by
            simp [hk, hs]
          obtain ⟨r2, h2, h3⟩ := ih (keyOf pk a :: seen) r hr2 hs2
          exact ⟨r2, List.mem_cons_of_mem a h2, h3⟩

/-- A list containing two elements with different images has at least two
elements. -/
theorem length_ge_two_of_two_keys {α β : Type} (f : α → β) (l : List α) (a b : α)
    (ha : a ∈ l) (hb : b ∈ l) (hne : f a ≠ f b) : 2 ≤ l.length := by
  cases l with
  | nil => simp at ha
  | cons x rest =>
    cases rest with
    | nil =>
      simp at ha hb
      exact absurd (by rw [ha, hb]) hne
    | cons y ys =>
      simp only [List.length_cons]
      omega

/-- Deduplication drops everything when every key tuple was already seen. -/
theorem dropDupGo_nil_of_all_seen (pk : List String) :
    ∀ (rs : List Row) (seen : List (List Val)),
      (∀ r ∈ rs, keyOf pk r ∈ seen) → dropDupGo pk rs seen = [] := by
  intro rs
  induction rs with
  | nil => intro seen _; rfl
  | cons a rest ih =>
    intro seen h
    simp only [dropDupGo, if_pos (h a (List.mem_cons_self a rest))]
    exact ih seen (fun r hr => h r (List.mem_cons_of_mem a hr))

/-- Deduplication of a nonempty list whose rows all share one key tuple
keeps exactly the first row. -/
theorem dropDupOn_singleton (pk : List String) (r : Row) (rest : List Row)
    (h : ∀ x ∈ rest, keyOf pk x = keyOf pk r) :
    dropDupOn pk (r :: rest) = [r] := by
  unfold dropDupOn
  simp only [dropDupGo, if_neg (List.not_mem_nil _)]
  rw [dropDupGo_nil_of_all_seen pk rest _ (fun x hx => by simp [h x hx])]

/-- The part-table loop keeps the committed rows and the transaction flag
when it runs inside a transaction. -/
theorem insertParts_inTx (fails : String → Bool) (frame : Frame) :
    ∀ (parts : List PartSpec) (st : DBState), st.inTx = true →
      (insertParts fails frame parts st).1.committed = st.committed ∧
      (insertParts fails frame parts st).1.inTx = true := by
  intro parts
  induction parts with
  | nil => intro st h; exact ⟨rfl, h⟩
  | cons p rest ih =>
    intro st h
    simp only [insertParts]
    by_cases h1 : partColumns frame p = []
    · rw [if_pos h1]
      exact ih st h
    · rw [if_neg h1]
      by_cases h2 : fails p.name
      · simp [h2, h]
      · simp only [h2, Bool.false_eq_true, if_false]
        have hA : (appendWrites st p.name
            (dropDupOn p.primaryKey (frame.rows.map (projRow (partColumns frame p))))).inTx
            = true := by simp [appendWrites, h]
        have hC : (appendWrites st p.name
            (dropDupOn p.primaryKey (frame.rows.map (projRow (partColumns frame p))))).committed
            = st.committed := by simp [appendWrites, h]
        obtain ⟨c1, c2⟩ := ih _ hA
        exact ⟨c1.trans hC, c2⟩

/-- A successful part-table loop inside a transaction appends exactly the
planned part writes to the pending set. -/
theorem insertParts_success_pending (fails : String → Bool) (frame : Frame) :
    ∀ (parts : List PartSpec) (st : DBState), st.inTx = true →
      (insertParts fails frame parts st).2 = none →
      (insertParts fails frame parts st).1.pending =
        st.pending ++ (parts.map (plannedPartWrites frame)).flatten := by
  intro parts
  induction parts with
  | nil => intro st _ _; simp [insertParts]
  | cons p rest ih =>
    intro st h hok
    simp only [insertParts] at hok ⊢
    by_cases h1 : partColumns frame p = []
    · rw [if_pos h1] at hok ⊢
      rw [ih st h hok]
      simp [plannedPartWrites, h1]
    · rw [if_neg h1] at hok ⊢
      by_cases h2 : fails p.name
      · simp [h2] at hok
      · simp only [h2, Bool.false_eq_true, if_false] at hok ⊢
        have hA : (appendWrites st p.name
            (dropDupOn p.primaryKey (frame.rows.map (projRow (partColumns frame p))))).inTx
            = true := by simp [appendWrites, h]
        rw [ih _ hA hok]
        simp only [appendWrites, h, if_pos]
        rw [List.map_cons, List.flatten_cons]
        have hpw : plannedPartWrites frame p =
            (dropDupOn p.primaryKey (frame.rows.map (projRow (partColumns frame p)))).map
              (fun r => (p.name, r)) := by
          unfold plannedPartWrites
          rw [if_neg h1]
        rw [hpw]
        simp [List.append_assoc]

/-- The helper of insert1p keeps the committed rows and the transaction
flag when it runs inside a transaction. -/
theorem runHelper_inTx (spec : TableSpec) (fails : String → Bool) (frame : Frame)
    (mi : Row) (st : DBState) (h : st.inTx = true) :
    (runHelper spec fails frame mi st).1.committed = st.committed ∧
    (runHelper spec fails frame mi st).1.inTx = true := by
  unfold runHelper
  by_cases h2 : fails spec.name
  · simp [h2, h]
  · simp only [h2, Bool.false_eq_true, if_false]
    have hA : (appendWrites st spec.name [mi]).inTx = true := by simp [appendWrites, h]
    have hC : (appendWrites st spec.name [mi]).committed = st.committed := by
      simp [appendWrites, h]
    obtain ⟨c1, c2⟩ := insertParts_inTx fails frame spec.parts _ hA
    exact ⟨c1.trans hC, c2⟩

/-- A successful helper run inside a transaction appends exactly the master
write followed by the planned part writes to the pending set. -/
theorem runHelper_success_pending (spec : TableSpec) (fails : String → Bool)
    (frame : Frame) (mi : Row) (st : DBState) (h : st.inTx = true)
    (hok : (runHelper spec fails frame mi st).2 = none) :
    (runHelper spec fails frame mi st).1.pending =
      st.pending ++ ((spec.name, mi) :: (spec.parts.map (plannedPartWrites frame)).flatten) := by
  unfold runHelper at hok ⊢
  by_cases h2 : fails spec.name
  · simp [h2] at hok
  · simp only [h2, Bool.false_eq_true, if_false] at hok ⊢
    have hA : (appendWrites st spec.name [mi]).inTx = true := by simp [appendWrites, h]
    rw [insertParts_success_pending fails frame spec.parts _ hA hok]
    simp [appendWrites, h]

/-- C3: insert1p is atomic for one logical record.  When the master
primary-key projection of the supplied rows is not unique the call fails
with the uniqueness assertion and the connection state is untouched; when
any write fails, no master or part row reaches the committed (persisted)
state; and on success the master row is written first and then every part
table, all inside one transaction: a call outside a transaction opens one
and commits exactly the planned writes, a call inside one joins it, leaving
the planned writes pending for the transaction owner. -/
theorem insert1p_atomic (spec : TableSpec) (fails : String → Bool) (frame : Frame)
    (st : DBState)
    (hpk : ∀ a ∈ spec.primaryKey, a ∈ masterColumns spec frame) :
    ((∃ r1 ∈ frame.rows, ∃ r2 ∈ frame.rows,
        keyOf spec.primaryKey r1 ≠ keyOf spec.primaryKey r2) →
      insert1p spec fails frame st = (st, some pkUniqueMsg)) ∧
    (∀ st2 e, insert1p spec fails frame st = (st2, some e) →
      st2.committed = st.committed) ∧
    (∀ st2, insert1p spec fails frame st = (st2, none) →
      (st.inTx = false →
        st2 = { committed := st.committed ++ (st.pending ++ plannedWrites spec frame),
                pending := [], inTx := false }) ∧
      (st.inTx = true →
        st2.committed = st.committed ∧
        st2.pending = st.pending ++ plannedWrites spec frame ∧ st2.inTx = true)) := by
  refine ⟨?_, ?_, ?_⟩
  · rintro ⟨r1, hr1, r2, hr2, hne⟩
    have hk1 := keyOf_projRow spec.primaryKey (masterColumns spec frame) r1 hpk
    have hk2 := keyOf_projRow spec.primaryKey (masterColumns spec frame) r2 hpk
    have hm1 : projRow (masterColumns spec frame) r1 ∈
        frame.rows.map (projRow (masterColumns spec frame)) :=
      List.mem_map_of_mem _ hr1
    have hm2 : projRow (masterColumns spec frame) r2 ∈
        frame.rows.map (projRow (masterColumns spec frame)) :=
      List.mem_map_of_mem _ hr2
    obtain ⟨q1, hq1, hkq1⟩ :=
      dropDupGo_mem_key spec.primaryKey _ [] _ hm1 (List.not_mem_nil _)
    obtain ⟨q2, hq2, hkq2⟩ :=
      dropDupGo_mem_key spec.primaryKey _ [] _ hm2 (List.not_mem_nil _)
    have hqne : keyOf spec.primaryKey q1 ≠ keyOf spec.primaryKey q2 := by
      rw [hkq1, hkq2, hk1, hk2]
      exact hne
    have hlen : 2 ≤ (dropDupOn spec.primaryKey
        (frame.rows.map (projRow (masterColumns spec frame)))).length :=
      length_ge_two_of_two_keys (keyOf spec.primaryKey) _ q1 q2 hq1 hq2 hqne
    unfold insert1p
    rw [if_pos hpk, if_neg (by omega)]
  · intro st2 e h
    unfold insert1p at h
    by_cases hp : ∀ a ∈ spec.primaryKey, a ∈ masterColumns spec frame
    · rw [if_pos hp] at h
      by_cases hl : (dropDupOn spec.primaryKey
          (frame.rows.map (projRow (masterColumns spec frame)))).length = 1
      · rw [if_pos hl] at h
        by_cases hin : st.inTx = true
        · rw [if_pos hin] at h
          have hc := (runHelper_inTx spec fails frame (plannedMasterRow spec frame) st hin).1
          rw [h] at hc
          exact hc
        · rw [if_neg hin] at h
          rcases hrh : runHelper spec fails frame (plannedMasterRow spec frame)
            { st with inTx := true } with ⟨stH, oe⟩
          have hc := (runHelper_inTx spec fails frame (plannedMasterRow spec frame)
            { st with inTx := true } rfl).1
          rw [hrh] at hc
          cases oe with
          | none =>
            simp only [hrh] at h
            simp at h
          | some e2 =>
            simp only [hrh] at h
            rw [Prod.mk.injEq] at h
            rw [← h.1]
            exact hc
      · rw [if_neg hl] at h
        rw [Prod.mk.injEq] at h
        rw [← h.1]
    · rw [if_neg hp] at h
      rw [Prod.mk.injEq] at h
      rw [← h.1]
  · intro st2 h
    unfold insert1p at h
    rw [if_pos hpk] at h
    by_cases hl : (dropDupOn spec.primaryKey
        (frame.rows.map (projRow (masterColumns spec frame)))).length = 1
    · rw [if_pos hl] at h
      constructor
      · intro hout
        rw [if_neg (by simp [hout])] at h
        rcases hrh : runHelper spec fails frame (plannedMasterRow spec frame)
          { st with inTx := true } with ⟨stH, oe⟩
        have hc := (runHelper_inTx spec fails frame (plannedMasterRow spec frame)
          { st with inTx := true } rfl).1
        rw [hrh] at hc
        cases oe with
        | some e2 =>
          simp only [hrh] at h
          simp at h
        | none =>
          have hpend := runHelper_success_pending spec fails frame (plannedMasterRow spec frame)
            { st with inTx := true } rfl (by rw [hrh])
          rw [hrh] at hpend
          simp only [hrh] at h
          rw [Prod.mk.injEq] at h
          rw [← h.1]
          rw [hc, hpend]
          rfl
      · intro hin
        rw [if_pos hin] at h
        have hc := (runHelper_inTx spec fails frame (plannedMasterRow spec frame) st hin).1
        have hi := (runHelper_inTx spec fails frame (plannedMasterRow spec frame) st hin).2
        have hpend := runHelper_success_pending spec fails frame (plannedMasterRow spec frame)
          st hin (by rw [h])
        rw [h] at hc hi hpend
        refine ⟨hc, ?_, hi⟩
        rw [hpend]
        rfl
    · rw [if_neg hl] at h
      rw [Prod.mk.injEq] at h
      exact absurd h.2 (by simp)

/-- Witness for C3: two supplied rows with different master keys make
insert1p fail with the uniqueness assertion, the state untouched. -/
theorem insert1p_atomic_witness :
    insert1p wSpec (fun _ => false) wFrameDup wSt = (wSt, some pkUniqueMsg) := by
  have h := insert1p_atomic wSpec (fun _ => false) wFrameDup wSt (by decide)
  exact h.1 ⟨[("id", some 1), ("a", some 10)], by decide,
    [("id", some 2), ("a", some 11)], by decide, by decide⟩

/-- C10: insert1p fails, before opening any transaction and before writing
any row, whenever at least one master primary-key attribute is absent from
the supplied columns: the connection state is returned unchanged with the
presence assertion message. -/
theorem insert1p_missing_pk_fails (spec : TableSpec) (fails : String → Bool)
    (frame : Frame) (st : DBState)
    (h : ∃ a ∈ spec.primaryKey, a ∉ frame.columns) :
    insert1p spec fails frame st = (st, some pkMissingMsg) := by
  obtain ⟨a, ha, hna⟩ := h
  have hnot : ¬ ∀ b ∈ spec.primaryKey, b ∈ masterColumns spec frame := by
    intro hall
    have hmem := hall a ha
    simp only [masterColumns, List.mem_filter, decide_eq_true_eq] at hmem
    exact hna hmem.2
  simp only [insert1p]
  rw [if_neg hnot]

/-- Witness for C10: a frame without the master key column id is refused. -/
theorem insert1p_missing_pk_fails_witness :
    insert1p wSpec (fun _ => false) ⟨["a"], [[("a", some 10)]]⟩ wSt =
      (wSt, some pkMissingMsg) :=
  insert1p_missing_pk_fails _ _ _ _ ⟨"id", by decide, by decide⟩

end DJ
